import Mathlib

/-!
Verification of the film-analytics pipeline.

The definitions below are a shallow embedding of the repository
data pipeline:

* `clean_data`, `callerStateAfter`, `cleanAgain` embed
  `src/data_cleaning.py` (`clean_data`);
* `get_category_views`, `get_basic_stats` embed `src/features.py`;
* `predict_top_category` embeds `src/modeling.py`.

Modelling conventions:

* A pandas `DataFrame` is a `List` of row structures, in row order.
* A cell that may hold `NaN`/`NaT` is an `Option`; `none` is the null.
* Calendar dates are day numbers (`Int`); `pd.Timestamp.today()` is an
  explicit `today : Int` parameter (the derived columns of the code only use
  whole-day differences, `.dt.days`).
* `Number_of_Views` is `Int`, `Viewer_Rate` is `ℚ` (exact arithmetic in
  place of float; the claims at stake concern signs, zeroes and sums,
  where the two agree).
* The per-process Python string `hash` and the `astype(str)` rendering of a
  date are opaque parameters `hashFn : String → Int` and
  `dateStr : Int → String`; the string parser of `pd.to_datetime` is an
  opaque parameter `parse : String → Option Int` (`none` models `NaT`
  from `errors="coerce"`).
-/

/-- A raw date cell before `pd.to_datetime`: either still text (as read
from the CSV) or already a datetime value. -/
inductive DateVal where
  | str (s : String)
  | date (d : Int)
deriving DecidableEq, Repr

/-- A row of the raw input table (the argument of `clean_data`): the
seven CSV columns, each possibly null. -/
structure RawRow where
  Film_Name : Option String
  Release_Date : Option DateVal
  Viewing_Month : Option DateVal
  Category : Option String
  Language : Option String
  Number_of_Views : Option Int
  Viewer_Rate : Option ℚ
deriving DecidableEq, Repr

/-- A row after the two `pd.to_datetime(..., errors="coerce")`
assignments of `clean_data`: date columns are datetimes or `NaT`. -/
structure ParsedRow where
  Film_Name : Option String
  Release_Date : Option Int
  Viewing_Month : Option Int
  Category : Option String
  Language : Option String
  Number_of_Views : Option Int
  Viewer_Rate : Option ℚ
deriving DecidableEq, Repr

/-- A row of the table `clean_data` returns: the parsed columns plus
the four derived columns. -/
structure FullRow extends ParsedRow where
  Movie_ID : Option Int
  days_since_release : Option Int
  months_since_release : Option ℚ
  trending_score : Option ℚ
deriving DecidableEq, Repr

/-- Embedding of `pd.to_datetime(x, errors="coerce")` on one cell: a null stays null
(`NaT`), text goes through the parser (failures coerce to `NaT`), an
already-parsed datetime is returned unchanged. -/
def toDatetime (parse : String → Option Int) : Option DateVal → Option Int
  | none => none
  | some (.str s) => parse s
  | some (.date d) => some d

/-- The effect of the two date-column assignments of `clean_data` on
one row (`data_cleaning.py` lines 17-18). -/
def parseRow (parse : String → Option Int) (r : RawRow) : ParsedRow :=
  { Film_Name := r.Film_Name
    Release_Date := toDatetime parse r.Release_Date
    Viewing_Month := toDatetime parse r.Viewing_Month
    Category := r.Category
    Language := r.Language
    Number_of_Views := r.Number_of_Views
    Viewer_Rate := r.Viewer_Rate }

/-- Core of `df.drop_duplicates()`: keep the first occurrence of each value,
preserving order.  `seen` accumulates the values already kept. -/
def dropDupAux [DecidableEq α] (seen : List α) : List α → List α
  | [] => []
  | x :: xs => if x ∈ seen then dropDupAux seen xs else x :: dropDupAux (x :: seen) xs

/-- Embedding of `df.drop_duplicates()` (`data_cleaning.py` line 23). -/
def dropDuplicates [DecidableEq α] (l : List α) : List α :=
  dropDupAux [] l

/-- Whether a parsed row survives `df.dropna()`: every column non-null. -/
def ParsedRow.hasNoNull (p : ParsedRow) : Bool :=
  p.Film_Name.isSome && p.Release_Date.isSome && p.Viewing_Month.isSome &&
    p.Category.isSome && p.Language.isSome && p.Number_of_Views.isSome &&
    p.Viewer_Rate.isSome

/-- The `Movie_ID` column (`data_cleaning.py` lines 29-30):
`hash(Film_Name + str(Release_Date) + Category + Language)`.  The `none`
branch is unreachable after `dropna` and just records that a null input
yields a null output. -/
def movieIdOf (hashFn : String → Int) (dateStr : Int → String) (p : ParsedRow) :
    Option Int :=
  match p.Film_Name, p.Release_Date, p.Category, p.Language with
  | some fn, some rd, some c, some lg => some (hashFn (fn ++ dateStr rd ++ c ++ lg))
  | _, _, _, _ => none

/-- The `days_since_release` column (`data_cleaning.py` lines 36-37):
`(today - Release_Date).dt.days`, then `.replace(0, 1)`. -/
def daysOf (today : Int) (p : ParsedRow) : Option Int :=
  p.Release_Date.map (fun rd => if today - rd = 0 then 1 else today - rd)

/-- The `months_since_release` column (`data_cleaning.py` line 38):
`days_since_release / 30`. -/
def monthsOf (today : Int) (p : ParsedRow) : Option ℚ :=
  (daysOf today p).map (fun d => (d : ℚ) / 30)

/-- The `trending_score` column (`data_cleaning.py` line 39):
`Number_of_Views / months_since_release`. -/
def trendingOf (today : Int) (p : ParsedRow) : Option ℚ :=
  match p.Number_of_Views, monthsOf today p with
  | some v, some m => some ((v : ℚ) / m)
  | _, _ => none

/-- The four derived-column assignments of `clean_data`
(`data_cleaning.py` lines 29-39) applied to one surviving row. -/
def deriveOpt (hashFn : String → Int) (dateStr : Int → String) (today : Int)
    (p : ParsedRow) : FullRow :=
  { toParsedRow := p
    Movie_ID := movieIdOf hashFn dateStr p
    days_since_release := daysOf today p
    months_since_release := monthsOf today p
    trending_score := trendingOf today p }

/-- Embedding of `clean_data` (`data_cleaning.py` lines 11-41): parse the two date
columns, drop exact duplicate rows, drop rows with any null, then
append the derived columns.  `reset_index(drop=True)` is the identity
on the list-of-rows representation. -/
def clean_data (parse : String → Option Int) (hashFn : String → Int)
    (dateStr : Int → String) (today : Int) (df : List RawRow) : List FullRow :=
  ((dropDuplicates (df.map (parseRow parse))).filter ParsedRow.hasNoNull).map
    (deriveOpt hashFn dateStr today)

/-- The state of the dataframe owned by the caller after `clean_data` returns: the
two `df["..."] = pd.to_datetime(...)` assignments (lines 17-18) mutate
the object the caller passed in, while every later step operates on the
fresh object created by `df.drop_duplicates()` (line 23). -/
def callerStateAfter (parse : String → Option Int) (df : List RawRow) :
    List RawRow :=
  df.map (fun r =>
    { r with
      Release_Date := (toDatetime parse r.Release_Date).map .date
      Viewing_Month := (toDatetime parse r.Viewing_Month).map .date })

/-- The columns of a raw row other than the two date columns. -/
def stripDates (r : RawRow) :
    Option String × Option String × Option String × Option Int × Option ℚ :=
  (r.Film_Name, r.Category, r.Language, r.Number_of_Views, r.Viewer_Rate)

/-- Whether a cleaned row survives `df.dropna()`: all eleven columns
non-null. -/
def FullRow.hasNoNull (r : FullRow) : Bool :=
  r.toParsedRow.hasNoNull && r.Movie_ID.isSome && r.days_since_release.isSome &&
    r.months_since_release.isSome && r.trending_score.isSome

/-- Re-running the four derived-column assignments on a row of an
already-cleaned table: each derived column is overwritten with the value
recomputed from the base columns. -/
def rederive (hashFn : String → Int) (dateStr : Int → String) (today : Int)
    (r : FullRow) : FullRow :=
  { r with
    Movie_ID := movieIdOf hashFn dateStr r.toParsedRow
    days_since_release := daysOf today r.toParsedRow
    months_since_release := monthsOf today r.toParsedRow
    trending_score := trendingOf today r.toParsedRow }

/-- Embedding of `clean_data` as applied to a table that is already the output of
`clean_data`.  On such a table the two `pd.to_datetime` assignments are
the identity (the columns are already datetimes), `drop_duplicates` and
`dropna` now see all eleven columns, and the derived columns are
overwritten by recomputation. -/
def cleanAgain (hashFn : String → Int) (dateStr : Int → String) (today : Int)
    (df : List FullRow) : List FullRow :=
  ((dropDuplicates df).filter FullRow.hasNoNull).map (rederive hashFn dateStr today)

/-!
Aggregation (`src/features.py`) and the decision rule
(`src/modeling.py`) consume the cleaned table, whose columns are all
non-null (the no-null invariant proved below).  `FilmRow` is the
corresponding row type with the columns those functions read, all
non-null.
-/

/-- Lexicographic comparison of character lists by code point: the
order Python uses on `str`, hence the order pandas sorts string group
keys with. -/
def lexLe : List Char → List Char → Bool
  | [], _ => true
  | _ :: _, [] => false
  | a :: as, b :: bs => if a < b then true else if b < a then false else lexLe as bs

/-- The Python `<=` on strings: lexicographic by code point. -/
def strLe (s t : String) : Bool :=
  lexLe s.data t.data

/-- The string order as a relation, for sorting. -/
def strLeR (s t : String) : Prop :=
  strLe s t = true

instance : DecidableRel strLeR := fun s t => by
  unfold strLeR; infer_instance

/-- A row of a cleaned table, as consumed by the aggregation functions. -/
structure FilmRow where
  Film_Name : String
  Release_Date : Int
  Viewing_Month : Int
  Category : String
  Language : String
  Number_of_Views : Int
  Viewer_Rate : ℚ
deriving DecidableEq, Repr

/-- The distinct `Category` keys of `df.groupby("Category")`, in the
ascending order the grouping produces (`sort=True` is the pandas
default; Python compares strings by code point, as Lean does). -/
def catKeys (df : List FilmRow) : List String :=
  List.insertionSort strLeR (dropDuplicates (df.map (fun r => r.Category)))

/-- The series `df.groupby("Category")["Number_of_Views"].sum()`:
one `(category, summed views)` pair per distinct category, keys
ascending. -/
def categoryViewsSeries (df : List FilmRow) : List (String × Int) :=
  (catKeys df).map (fun c =>
    (c, ((df.filter (fun r => r.Category == c)).map (fun r => r.Number_of_Views)).sum))

/-- Embedding of `get_category_views` (`features.py` lines 4-6): the grouped sums;
`reset_index()` is the identity on the list-of-pairs representation. -/
def get_category_views (df : List FilmRow) : List (String × Int) :=
  categoryViewsSeries df

/-- Scan of `Series.idxmax` on a non-empty series, running with the running
best and moving only on a strict increase, so the first label attaining
the maximum is returned. -/
def idxmaxAux (best : String × Int) : List (String × Int) → String
  | [] => best.1
  | q :: rest => if best.2 < q.2 then idxmaxAux q rest else idxmaxAux best rest

/-- Embedding of `Series.idxmax`: label of the first occurrence of the maximum value;
on an empty series the code raises (`none` here). -/
def idxmax : List (String × Int) → Option String
  | [] => none
  | q :: rest => some (idxmaxAux q rest)

/-- Embedding of `predict_top_category` (`modeling.py` lines 4-7):
`df.groupby("Category")["Number_of_Views"].sum().idxmax()`. -/
def predict_top_category (df : List FilmRow) : Option String :=
  idxmax (categoryViewsSeries df)

/-- The record returned by `get_basic_stats`.  `avg_rating` is an
`Option` because `Series.mean()` of an empty column is `NaN`
(modelled as `none`), which `round` propagates. -/
structure Stats where
  total_films : Nat
  total_views : Int
  avg_rating : Option ℚ
deriving DecidableEq, Repr

/-- Round an integer-valued target: round half to even, as the Python `round` does. -/
def roundHalfEven (q : ℚ) : Int :=
  if q - ⌊q⌋ < 1 / 2 then ⌊q⌋
  else if 1 / 2 < q - ⌊q⌋ then ⌊q⌋ + 1
  else if ⌊q⌋ % 2 = 0 then ⌊q⌋ else ⌊q⌋ + 1

/-- The Python `round(x, 2)`: round to the nearest multiple of `1/100`,
half to even. -/
def round2 (q : ℚ) : ℚ :=
  (roundHalfEven (100 * q) : ℚ) / 100

/-- Embedding of `Series.mean()`: sum over count; `NaN` (here `none`) when empty. -/
def listMean (l : List ℚ) : Option ℚ :=
  if l = [] then none else some (l.sum / l.length)

/-- Embedding of `get_basic_stats` (`features.py` lines 19-25): distinct-name count
(`nunique`), total views, and the rounded mean rating. -/
def get_basic_stats (df : List FilmRow) : Stats :=
  { total_films := (dropDuplicates (df.map (fun r => r.Film_Name))).length
    total_views := (df.map (fun r => r.Number_of_Views)).sum
    avg_rating := (listMean (df.map (fun r => r.Viewer_Rate))).map round2 }

/-- Modelled from the spec (section 4.3, Basic stats): the record
`\x7btotal_films: count of distinct film_name, total_views: sum of
number_of_views, avg_rating: mean of viewer_rate rounded to 2 decimal
places\x7d`, with a `NaN`-like undefined mean on an empty table. -/
def specBasicStats (df : List FilmRow) : Stats :=
  { total_films := (df.map (fun r => r.Film_Name)).toFinset.card
    total_views := (df.map (fun r => r.Number_of_Views)).sum
    avg_rating := (listMean (df.map (fun r => r.Viewer_Rate))).map round2 }

/-!
Concrete sample data used by witnesses and counterexamples.
-/

/-- A date parser for concrete runs: day number written in decimal after
a `d`, only `d101` and `d200` recognised. -/
def sampleParse (s : String) : Option Int :=
  if s = "d101" then some 101 else if s = "d200" then some 200 else none

/-- A stand-in for the per-process Python string hash. -/
def sampleHash (_ : String) : Int := 0

/-- A stand-in for `astype(str)` on a datetime. -/
def sampleDateStr (d : Int) : String := toString d

/-- A raw row whose release date parses to day 101. -/
def rawFuture : RawRow :=
  { Film_Name := some "A"
    Release_Date := some (.str "d101")
    Viewing_Month := some (.str "d101")
    Category := some "Horror"
    Language := some "EN"
    Number_of_Views := some 10
    Viewer_Rate := some 3 }

/-- A raw row whose release date parses to day 200. -/
def rawPast : RawRow :=
  { Film_Name := some "B"
    Release_Date := some (.str "d200")
    Viewing_Month := some (.str "d200")
    Category := some "Comedy"
    Language := some "EN"
    Number_of_Views := some 7
    Viewer_Rate := some 4 }

/-- Cleaned sample rows: the three-film example of the spec (section 8). -/
def filmA : FilmRow :=
  { Film_Name := "A", Release_Date := 0, Viewing_Month := 0, Category := "Horror"
    Language := "EN", Number_of_Views := 100, Viewer_Rate := 4 }

/-- Second film of the spec example. -/
def filmB : FilmRow :=
  { Film_Name := "B", Release_Date := 0, Viewing_Month := 0, Category := "Comedy"
    Language := "EN", Number_of_Views := 50, Viewer_Rate := 3 }

/-- Third film of the spec example. -/
def filmC : FilmRow :=
  { Film_Name := "C", Release_Date := 0, Viewing_Month := 0, Category := "Horror"
    Language := "EN", Number_of_Views := 200, Viewer_Rate := 5 }

/-- A film tying `Comedy` with `Horror` at 150 views. -/
def filmTie1 : FilmRow :=
  { Film_Name := "T1", Release_Date := 0, Viewing_Month := 0, Category := "Horror"
    Language := "EN", Number_of_Views := 150, Viewer_Rate := 4 }

/-- The other half of the tie. -/
def filmTie2 : FilmRow :=
  { Film_Name := "T2", Release_Date := 0, Viewing_Month := 0, Category := "Comedy"
    Language := "EN", Number_of_Views := 150, Viewer_Rate := 4 }

/-!
Helper lemmas.
-/

theorem mem_dropDupAux [DecidableEq α] (a : α) :
    ∀ (l seen : List α), a ∈ dropDupAux seen l ↔ a ∈ l ∧ a ∉ seen := by
  intro l
  induction l with
  | nil => intro seen; simp [dropDupAux]
  | cons x xs ih =>
    intro seen
    by_cases hx : x ∈ seen
    · simp only [dropDupAux, if_pos hx, ih, List.mem_cons]
      constructor
      · rintro ⟨h1, h2⟩; exact ⟨Or.inr h1, h2⟩
      · rintro ⟨h1 | h1, h2⟩
        · exact absurd (h1 ▸ hx) h2
        · exact ⟨h1, h2⟩
    · simp only [dropDupAux, if_neg hx, List.mem_cons, ih]
      by_cases hax : a = x
      · subst hax; simp [hx]
      · simp [hax]

theorem nodup_dropDupAux [DecidableEq α] :
    ∀ (l seen : List α), (dropDupAux seen l).Nodup := by
  intro l
  induction l with
  | nil => intro seen; simp [dropDupAux]
  | cons x xs ih =>
    intro seen
    by_cases hx : x ∈ seen
    · simpa [dropDupAux, hx] using ih seen
    · simp only [dropDupAux, if_neg hx]
      refine List.Nodup.cons ?_ (ih (x :: seen))
      intro hmem
      exact ((mem_dropDupAux x xs (x :: seen)).mp hmem).2 (List.mem_cons_self x seen)

theorem dropDupAux_eq_self [DecidableEq α] :
    ∀ (l seen : List α), l.Nodup → (∀ a ∈ l, a ∉ seen) → dropDupAux seen l = l := by
  intro l
  induction l with
  | nil => intro seen _ _; rfl
  | cons x xs ih =>
    intro seen hnd hout
    have hx : x ∉ seen := hout x (List.mem_cons_self x xs)
    simp only [dropDupAux, if_neg hx]
    congr 1
    refine ih (x :: seen) (List.Nodup.of_cons hnd) ?_
    intro a ha
    simp only [List.mem_cons]
    rintro (rfl | hs)
    · exact (List.nodup_cons.mp hnd).1 ha
    · exact hout a (List.mem_cons_of_mem x ha) hs

theorem mem_dropDuplicates [DecidableEq α] (a : α) (l : List α) :
    a ∈ dropDuplicates l ↔ a ∈ l := by
  simp [dropDuplicates, mem_dropDupAux]

theorem nodup_dropDuplicates [DecidableEq α] (l : List α) :
    (dropDuplicates l).Nodup :=
  nodup_dropDupAux l []

theorem dropDuplicates_eq_self [DecidableEq α] (l : List α) (h : l.Nodup) :
    dropDuplicates l = l :=
  dropDupAux_eq_self l [] h (by simp)

theorem lexLe_total : ∀ as bs : List Char, lexLe as bs = true ∨ lexLe bs as = true := by
  intro as
  induction as with
  | nil => intro bs; left; rfl
  | cons a as ih =>
    intro bs
    cases bs with
    | nil => right; rfl
    | cons b bs =>
      rcases lt_trichotomy a b with h | h | h
      · left; simp [lexLe, h]
      · subst h
        rcases ih bs with h' | h'
        · left; simp [lexLe, lt_irrefl, h']
        · right; simp [lexLe, lt_irrefl, h']
      · right; simp [lexLe, h]

theorem lexLe_trans :
    ∀ as bs cs : List Char,
      lexLe as bs = true → lexLe bs cs = true → lexLe as cs = true := by
  intro as
  induction as with
  | nil => intro bs cs _ _; rfl
  | cons a as ih =>
    intro bs cs h1 h2
    cases bs with
    | nil => simp [lexLe] at h1
    | cons b bs =>
      cases cs with
      | nil => simp [lexLe] at h2
      | cons c cs =>
        rcases lt_trichotomy a b with hab | hab | hab
        · rcases lt_trichotomy b c with hbc | hbc | hbc
          · simp [lexLe, lt_trans hab hbc]
          · subst hbc; simp [lexLe, hab]
          · simp [lexLe, hbc, asymm hbc] at h2
        · subst hab
          rcases lt_trichotomy a c with hac | hac | hac
          · simp [lexLe, hac]
          · subst hac
            simp only [lexLe, lt_irrefl, if_false] at h1 h2 ⊢
            exact ih bs cs h1 h2
          · simp [lexLe, hac, asymm hac] at h2
        · simp [lexLe, hab, asymm hab] at h1

theorem hasNoNull_deriveOpt (hashFn : String → Int) (dateStr : Int → String)
    (today : Int) (p : ParsedRow) (h : p.hasNoNull = true) :
    (deriveOpt hashFn dateStr today p).hasNoNull = true := by
  obtain ⟨fn, rd, vm, c, lg, nv, vr⟩ := p
  rcases fn with _ | f0 <;> rcases rd with _ | r0 <;> rcases vm with _ | v0 <;>
    rcases c with _ | c0 <;> rcases lg with _ | l0 <;> rcases nv with _ | n0 <;>
    rcases vr with _ | q0 <;>
    simp_all [ParsedRow.hasNoNull, FullRow.hasNoNull, deriveOpt, movieIdOf,
      daysOf, monthsOf, trendingOf]

theorem clean_data_mem {parse : String → Option Int} {hashFn : String → Int}
    {dateStr : Int → String} {today : Int} {df : List RawRow} {r : FullRow}
    (hr : r ∈ clean_data parse hashFn dateStr today df) :
    ∃ p : ParsedRow, p.hasNoNull = true ∧ r = deriveOpt hashFn dateStr today p := by
  unfold clean_data at hr
  obtain ⟨p, hp, rfl⟩ := List.mem_map.mp hr
  exact ⟨p, List.of_mem_filter hp, rfl⟩

/-- C5: every row of the table returned by `clean_data` has a non-null
value in every column — the original columns, the parsed date columns,
and the derived columns `Movie_ID`, `days_since_release`,
`months_since_release` and `trending_score`. -/
theorem clean_data_no_nulls (parse : String → Option Int) (hashFn : String → Int)
    (dateStr : Int → String) (today : Int) (df : List RawRow) :
    ∀ r ∈ clean_data parse hashFn dateStr today df, r.hasNoNull = true := by
  intro r hr
  obtain ⟨p, hp, rfl⟩ := clean_data_mem hr
  exact hasNoNull_deriveOpt hashFn dateStr today p hp

/-- Witness for C5: the no-null invariant evaluated on the cleaned form
of a concrete raw row. -/
theorem clean_data_no_nulls_witness :
    (deriveOpt sampleHash sampleDateStr 300 (parseRow sampleParse rawPast)).hasNoNull
      = true :=
  clean_data_no_nulls sampleParse sampleHash sampleDateStr 300 [rawPast] _
    (by simp [clean_data, dropDuplicates, dropDupAux, parseRow, sampleParse,
      toDatetime, rawPast, ParsedRow.hasNoNull])

/-- C1 (amended): in every row returned by `clean_data`,
`months_since_release` is non-null and never zero — so the division
defining `trending_score` is never by zero — and it is at least `1/30`
whenever the release date of the row is not after today.  (A release date
strictly in the future yields a negative `days_since_release`, which
`replace(0, 1)` does not touch, so `months_since_release` then falls
below `1/30`.) -/
theorem clean_data_months_never_zero (parse : String → Option Int)
    (hashFn : String → Int) (dateStr : Int → String) (today : Int)
    (df : List RawRow) :
    ∀ r ∈ clean_data parse hashFn dateStr today df,
      ∃ m : ℚ, r.months_since_release = some m ∧ m ≠ 0 ∧
        ∀ rd : Int, r.Release_Date = some rd → rd ≤ today → 1 / 30 ≤ m := by
  intro r hr
  obtain ⟨p, hp, rfl⟩ := clean_data_mem hr
  simp only [ParsedRow.hasNoNull, Bool.and_eq_true] at hp
  obtain ⟨rd0, hrd⟩ := Option.isSome_iff_exists.mp hp.1.1.1.1.1.2
  by_cases h0 : today - rd0 = 0
  · refine ⟨1 / 30, ?_, by norm_num, ?_⟩
    · simp [deriveOpt, monthsOf, daysOf, hrd, h0]
    · intro rd _ _; exact le_refl _
  · refine ⟨((today - rd0 : Int) : ℚ) / 30, ?_, ?_, ?_⟩
    · simp [deriveOpt, monthsOf, daysOf, hrd, h0]
    · exact div_ne_zero (by exact_mod_cast h0) (by norm_num)
    · intro rd hrd' hle
      have hrdeq : rd = rd0 := by
        simp only [deriveOpt, hrd] at hrd'
        exact (Option.some_inj.mp hrd').symm
      subst hrdeq
      have h1 : (1 : Int) ≤ today - rd := by omega
      have h1q : (1 : ℚ) ≤ ((today - rd : Int) : ℚ) := by exact_mod_cast h1
      gcongr

/-- Witness for C1 (amended): the bound evaluated on the cleaned form of
a concrete raw row whose release date (day 200) is before today
(day 300). -/
theorem clean_data_months_never_zero_witness :
    ∃ m : ℚ,
      (deriveOpt sampleHash sampleDateStr 300
          (parseRow sampleParse rawPast)).months_since_release = some m ∧
        m ≠ 0 ∧
        ∀ rd : Int,
          (deriveOpt sampleHash sampleDateStr 300
              (parseRow sampleParse rawPast)).Release_Date = some rd →
            rd ≤ 300 → 1 / 30 ≤ m :=
  clean_data_months_never_zero sampleParse sampleHash sampleDateStr 300 [rawPast] _
    (by simp [clean_data, dropDuplicates, dropDupAux, parseRow, sampleParse,
      toDatetime, rawPast, ParsedRow.hasNoNull])

/-- Counterexample to C1 as stated: on a raw row whose release date is
day 101 while today is day 100, `clean_data` yields
`months_since_release = -1/30`, which is below `1/30`. -/
theorem clean_data_months_counterexample :
    ((clean_data sampleParse sampleHash sampleDateStr 100 [rawFuture]).map
        (fun r => r.months_since_release)) = [some (-(1 / 30))] ∧
      ¬ ((1 : ℚ) / 30 ≤ -(1 / 30)) := by
  constructor
  · simp [clean_data, dropDuplicates, dropDupAux, parseRow, sampleParse,
      toDatetime, deriveOpt, monthsOf, daysOf, rawFuture, ParsedRow.hasNoNull]
    norm_num
  · norm_num

/-- Counterexample to C7 as stated: on a table with one row whose
`Release_Date` is the text `"d101"`, the table owned by the caller after
`clean_data` holds the parsed datetime in that column, not the original
text — the in-place `df["..."] = pd.to_datetime(...)` assignments mutate
the object owned by the caller. -/
theorem clean_data_mutates_counterexample :
    callerStateAfter sampleParse [rawFuture] ≠ [rawFuture] := by
  decide

/-- C7 (amended): `clean_data` returns a new table, but it overwrites
the `Release_Date` and `Viewing_Month` columns of its input
with their parsed forms; every other column, and the number and order
of the rows, are left unchanged. -/
theorem clean_data_mutates_only_dates (parse : String → Option Int)
    (df : List RawRow) :
    (callerStateAfter parse df).map stripDates = df.map stripDates := by
  simp only [callerStateAfter, List.map_map]
  rfl

/-- Recomputing the derived columns of an already-derived row changes
nothing: both computations read the same base columns. -/
theorem rederive_deriveOpt (hashFn : String → Int) (dateStr : Int → String)
    (today : Int) (p : ParsedRow) :
    rederive hashFn dateStr today (deriveOpt hashFn dateStr today p)
      = deriveOpt hashFn dateStr today p :=
  rfl

theorem deriveOpt_injective (hashFn : String → Int) (dateStr : Int → String)
    (today : Int) :
    Function.Injective (deriveOpt hashFn dateStr today) :=
  fun _ _ h => congrArg FullRow.toParsedRow h

/-- C8: cleaning is idempotent — applying `clean_data` to a table that
is already the output of `clean_data`, with the same wall-clock date
(and the same in-process string hash), removes no further rows and
leaves every column, the derived ones included, unchanged. -/
theorem clean_data_idempotent (parse : String → Option Int)
    (hashFn : String → Int) (dateStr : Int → String) (today : Int)
    (df : List RawRow) :
    cleanAgain hashFn dateStr today (clean_data parse hashFn dateStr today df)
      = clean_data parse hashFn dateStr today df := by
  have hLnodup : ((dropDuplicates (df.map (parseRow parse))).filter
      ParsedRow.hasNoNull).Nodup :=
    (nodup_dropDuplicates _).filter _
  unfold cleanAgain clean_data
  rw [dropDuplicates_eq_self _ (hLnodup.map (deriveOpt_injective hashFn dateStr today))]
  rw [List.filter_map, List.map_map]
  have hfil : ((dropDuplicates (df.map (parseRow parse))).filter
        ParsedRow.hasNoNull).filter (FullRow.hasNoNull ∘ deriveOpt hashFn dateStr today)
      = (dropDuplicates (df.map (parseRow parse))).filter ParsedRow.hasNoNull := by
    refine List.filter_eq_self.mpr ?_
    intro p hp
    exact hasNoNull_deriveOpt hashFn dateStr today p (List.of_mem_filter hp)
  rw [hfil]
  refine List.map_congr_left ?_
  intro p _
  exact rederive_deriveOpt hashFn dateStr today p

theorem catKeys_nodup (df : List FilmRow) : (catKeys df).Nodup :=
  ((List.perm_insertionSort strLeR _).nodup_iff).mpr (nodup_dropDuplicates _)

theorem mem_catKeys (df : List FilmRow) (c : String) :
    c ∈ catKeys df ↔ c ∈ df.map (fun r => r.Category) := by
  unfold catKeys
  rw [List.mem_insertionSort, mem_dropDuplicates]

theorem catKeys_sorted (df : List FilmRow) : List.Sorted strLeR (catKeys df) := by
  haveI : IsTotal String strLeR := ⟨fun a b => lexLe_total a.data b.data⟩
  haveI : IsTrans String strLeR := ⟨fun a b c => lexLe_trans a.data b.data c.data⟩
  exact List.sorted_insertionSort strLeR _

theorem sum_map_add_int (f g : α → Int) :
    ∀ l : List α, (l.map (fun x => f x + g x)).sum = (l.map f).sum + (l.map g).sum := by
  intro l
  induction l with
  | nil => simp
  | cons x xs ih => simp [ih]; ring

theorem sum_indicator_zero (c : String) (v : Int) :
    ∀ keys : List String, c ∉ keys →
      (keys.map (fun k => if c = k then v else 0)).sum = 0 := by
  intro keys
  induction keys with
  | nil => intro _; rfl
  | cons k ks ih =>
    intro h
    have hck : ¬ c = k := fun hc => h (hc ▸ List.mem_cons_self k ks)
    simp only [List.map_cons, List.sum_cons, if_neg hck, zero_add]
    exact ih (fun hc => h (List.mem_cons_of_mem k hc))

theorem sum_indicator (c : String) (v : Int) :
    ∀ keys : List String, keys.Nodup → c ∈ keys →
      (keys.map (fun k => if c = k then v else 0)).sum = v := by
  intro keys
  induction keys with
  | nil => intro _ h; simp at h
  | cons k ks ih =>
    intro hnd hmem
    rcases List.mem_cons.mp hmem with rfl | hmem'
    · have h0 := sum_indicator_zero c v ks (List.nodup_cons.mp hnd).1
      simp [h0]
    · have hck : ¬ c = k := fun hc => (List.nodup_cons.mp hnd).1 (hc ▸ hmem')
      simp only [List.map_cons, List.sum_cons, if_neg hck, zero_add]
      exact ih (List.nodup_cons.mp hnd).2 hmem'

/-- Summing the per-key view totals over any duplicate-free key list
covering all categories of the table recovers the total views of the table:
the fibers of `groupby` partition the rows. -/
theorem sum_category_fibers (df : List FilmRow) :
    ∀ keys : List String, keys.Nodup → (∀ r ∈ df, r.Category ∈ keys) →
      (keys.map (fun c =>
        ((df.filter (fun r => r.Category == c)).map
          (fun r => r.Number_of_Views)).sum)).sum
        = (df.map (fun r => r.Number_of_Views)).sum := by
  induction df with
  | nil => intro keys _ _; simp
  | cons r t ih =>
    intro keys hnd hcov
    have hstep : ∀ c : String,
        (((r :: t).filter (fun x => x.Category == c)).map
          (fun x => x.Number_of_Views)).sum
          = (if r.Category = c then r.Number_of_Views else 0)
            + ((t.filter (fun x => x.Category == c)).map
              (fun x => x.Number_of_Views)).sum := by
      intro c
      by_cases h : r.Category = c
      · simp [List.filter_cons, h]
      · simp [List.filter_cons, h]
    calc (keys.map (fun c =>
            (((r :: t).filter (fun x => x.Category == c)).map
              (fun x => x.Number_of_Views)).sum)).sum
        = (keys.map (fun c =>
            (if r.Category = c then r.Number_of_Views else 0)
              + ((t.filter (fun x => x.Category == c)).map
                (fun x => x.Number_of_Views)).sum)).sum := by
          exact congrArg List.sum (List.map_congr_left (fun c _ => hstep c))
      _ = (keys.map (fun c =>
            if r.Category = c then r.Number_of_Views else 0)).sum
          + (keys.map (fun c =>
            ((t.filter (fun x => x.Category == c)).map
              (fun x => x.Number_of_Views)).sum)).sum := by
          exact sum_map_add_int _ _ keys
      _ = r.Number_of_Views + (t.map (fun x => x.Number_of_Views)).sum := by
          rw [sum_indicator r.Category r.Number_of_Views keys hnd
            (hcov r (List.mem_cons_self r t))]
          rw [ih keys hnd (fun x hx => hcov x (List.mem_cons_of_mem r hx))]
      _ = ((r :: t).map (fun x => x.Number_of_Views)).sum := by simp

/-- C3: the sum of `Number_of_Views` over the rows of the
`get_category_views` output equals the sum of `Number_of_Views` over
the rows of the input table — the category grouping partitions the
rows. -/
theorem gcv_sum_conservation (df : List FilmRow) :
    ((get_category_views df).map Prod.snd).sum
      = (df.map (fun r => r.Number_of_Views)).sum := by
  unfold get_category_views categoryViewsSeries
  rw [List.map_map]
  exact sum_category_fibers df (catKeys df) (catKeys_nodup df)
    (fun r hr => (mem_catKeys df r.Category).mpr (List.mem_map_of_mem _ hr))

/-- Witness for C3: sum conservation evaluated on the three-film spec
example (50 + 300 = 100 + 50 + 200). -/
theorem gcv_sum_conservation_witness :
    ((get_category_views [filmA, filmB, filmC]).map Prod.snd).sum
      = ([filmA, filmB, filmC].map (fun r => r.Number_of_Views)).sum :=
  gcv_sum_conservation [filmA, filmB, filmC]

/-- C9: for every table, the `get_category_views` output has exactly one
row per distinct `Category` value — its keys are duplicate-free and are
exactly the categories occurring in the table — and its rows are in
ascending lexicographic order of the category label, because the
grouping sorts its keys. -/
theorem gcv_rows_per_category (df : List FilmRow) :
    ((get_category_views df).map Prod.fst).Nodup ∧
      List.Sorted strLeR ((get_category_views df).map Prod.fst) ∧
      ∀ c : String,
        c ∈ (get_category_views df).map Prod.fst
          ↔ c ∈ df.map (fun r => r.Category) := by
  have hfst : (get_category_views df).map Prod.fst = catKeys df := by
    unfold get_category_views categoryViewsSeries
    rw [List.map_map]
    show List.map (fun c => c) (catKeys df) = catKeys df
    exact List.map_id' (catKeys df)
  rw [hfst]
  exact ⟨catKeys_nodup df, catKeys_sorted df, fun c => mem_catKeys df c⟩

theorem lexLe_refl : ∀ as : List Char, lexLe as as = true := by
  intro as
  induction as with
  | nil => rfl
  | cons a as ih => simp [lexLe, lt_irrefl, ih]

theorem strLeR_refl (s : String) : strLeR s s :=
  lexLe_refl s.data

theorem gcv_map_fst (df : List FilmRow) :
    (get_category_views df).map Prod.fst = catKeys df := by
  unfold get_category_views categoryViewsSeries
  rw [List.map_map]
  show List.map (fun c => c) (catKeys df) = catKeys df
  exact List.map_id' (catKeys df)

/-- The scan of `idxmaxAux` returns a label paired in `best :: l` with a
value that bounds every value, and — when the labels are sorted — the
first label attaining that maximum, hence one that lexicographically
precedes every tied label. -/
theorem idxmaxAux_spec :
    ∀ (l : List (String × Int)) (best : String × Int),
      ∃ v : Int, (idxmaxAux best l, v) ∈ best :: l ∧ best.2 ≤ v ∧
        (∀ p ∈ l, p.2 ≤ v) ∧
        (List.Sorted strLeR ((best :: l).map Prod.fst) →
          ∀ p ∈ best :: l, p.2 = v → strLeR (idxmaxAux best l) p.1) := by
  intro l
  induction l with
  | nil =>
    intro best
    refine ⟨best.2, by simp [idxmaxAux], le_refl _, by simp, ?_⟩
    intro _ p hp _
    rcases List.mem_singleton.mp hp with rfl
    simpa [idxmaxAux] using strLeR_refl p.1
  | cons q rest ih =>
    intro best
    by_cases hbq : best.2 < q.2
    · obtain ⟨v, hmem, hle, hall, hsorted⟩ := ih q
      refine ⟨v, ?_, le_trans (le_of_lt hbq) hle, ?_, ?_⟩
      · simpa [idxmaxAux, hbq] using List.mem_cons_of_mem best hmem
      · exact List.forall_mem_cons.mpr ⟨hle, hall⟩
      · intro hs p hp hpv
        simp only [idxmaxAux, if_pos hbq]
        have hs' : List.Sorted strLeR ((q :: rest).map Prod.fst) := by
          rw [List.map_cons] at hs
          exact hs.of_cons
        rcases List.mem_cons.mp hp with rfl | hp'
        · exact absurd hpv (by omega)
        · exact hsorted hs' p hp' hpv
    · obtain ⟨v, hmem, hle, hall, hsorted⟩ := ih best
      have hqv : q.2 ≤ v := le_trans (le_of_not_lt hbq) hle
      refine ⟨v, ?_, hle, List.forall_mem_cons.mpr ⟨hqv, hall⟩, ?_⟩
      · simp only [idxmaxAux, if_neg hbq]
        rcases List.mem_cons.mp hmem with heq | hmem'
        · rw [heq]; exact List.mem_cons_self _ _
        · exact List.mem_cons_of_mem best (List.mem_cons_of_mem q hmem')
      · intro hs p hp hpv
        simp only [idxmaxAux, if_neg hbq]
        have hbestq : strLeR best.1 q.1 := by
          rw [List.map_cons, List.map_cons] at hs
          exact (List.sorted_cons.mp hs).1 q.1 (List.mem_cons_self _ _)
        have hs'' : List.Sorted strLeR ((best :: rest).map Prod.fst) := by
          rw [List.map_cons, List.map_cons] at hs
          rw [List.map_cons]
          refine List.Pairwise.sublist ?_ hs
          exact List.Sublist.cons₂ _ (List.sublist_cons_self _ _)
        rcases List.mem_cons.mp hp with rfl | hp'
        · exact hsorted hs'' p (List.mem_cons_self _ _) hpv
        · rcases List.mem_cons.mp hp' with rfl | hp''
          · have hbv : best.2 = v := le_antisymm hle (hpv ▸ le_of_not_lt hbq)
            have h1 : strLeR (idxmaxAux best rest) best.1 :=
              hsorted hs'' best (List.mem_cons_self _ _) hbv
            exact lexLe_trans _ _ _ h1 hbestq
          · exact hsorted hs'' p (List.mem_cons_of_mem best hp'') hpv

/-- On a non-empty series with sorted labels, `idxmax` returns a label
attaining the maximum value that lexicographically precedes every label
tied for that maximum. -/
theorem idxmax_spec (l : List (String × Int)) (hne : l ≠ [])
    (hs : List.Sorted strLeR (l.map Prod.fst)) :
    ∃ c v, idxmax l = some c ∧ (c, v) ∈ l ∧ (∀ p ∈ l, p.2 ≤ v) ∧
      ∀ p ∈ l, p.2 = v → strLeR c p.1 := by
  cases l with
  | nil => exact absurd rfl hne
  | cons q rest =>
    obtain ⟨v, hmem, hle, hall, hsorted⟩ := idxmaxAux_spec rest q
    exact ⟨idxmaxAux q rest, v, rfl, hmem,
      List.forall_mem_cons.mpr ⟨hle, hall⟩, hsorted hs⟩

theorem gcv_ne_nil (df : List FilmRow) (h : df ≠ []) :
    get_category_views df ≠ [] := by
  cases df with
  | nil => exact absurd rfl h
  | cons r t =>
    have hc : r.Category ∈ catKeys (r :: t) :=
      (mem_catKeys _ _).mpr (List.mem_map_of_mem _ (List.mem_cons_self r t))
    exact List.ne_nil_of_mem
      (List.mem_map_of_mem (fun c =>
        (c, (((r :: t).filter (fun x => x.Category == c)).map
          (fun x => x.Number_of_Views)).sum)) hc)

/-- The full behaviour of the decision rule on a non-empty table: it
returns a category whose aggregated sum attains the maximum of the
`get_category_views` output, and that lexicographically precedes every
category tied for that maximum. -/
theorem predict_spec (df : List FilmRow) (h : df ≠ []) :
    ∃ c v, predict_top_category df = some c ∧
      (c, v) ∈ get_category_views df ∧
      (∀ p ∈ get_category_views df, p.2 ≤ v) ∧
      ∀ p ∈ get_category_views df, p.2 = v → strLeR c p.1 := by
  have hs : List.Sorted strLeR ((get_category_views df).map Prod.fst) := by
    rw [gcv_map_fst]; exact catKeys_sorted df
  exact idxmax_spec _ (gcv_ne_nil df h) hs

/-- Witness for C9: the key list evaluated on the three-film spec
example is `["Comedy", "Horror"]`, duplicate-free, sorted, and covers
exactly the categories present. -/
theorem gcv_rows_per_category_witness :
    ((get_category_views [filmA, filmB, filmC]).map Prod.fst).Nodup ∧
      List.Sorted strLeR ((get_category_views [filmA, filmB, filmC]).map Prod.fst) ∧
      ∀ c : String,
        c ∈ (get_category_views [filmA, filmB, filmC]).map Prod.fst
          ↔ c ∈ [filmA, filmB, filmC].map (fun r => r.Category) :=
  gcv_rows_per_category [filmA, filmB, filmC]

/-- C4: on every non-empty cleaned table, the category label returned by
`predict_top_category` carries a per-category view sum that equals the
maximum sum appearing in the `get_category_views` output. -/
theorem predict_matches_gcv_max (df : List FilmRow) (h : df ≠ []) :
    ∃ c v, predict_top_category df = some c ∧
      (c, v) ∈ get_category_views df ∧
      ∀ p ∈ get_category_views df, p.2 ≤ v := by
  obtain ⟨c, v, h1, h2, h3, _⟩ := predict_spec df h
  exact ⟨c, v, h1, h2, h3⟩

/-- Witness for C4: the three-film spec example, where the rule
returns `Horror` with the maximal sum 300. -/
theorem predict_matches_gcv_max_witness :
    ([filmA, filmB, filmC] : List FilmRow) ≠ [] ∧
      ∃ c v, predict_top_category [filmA, filmB, filmC] = some c ∧
        (c, v) ∈ get_category_views [filmA, filmB, filmC] ∧
        ∀ p ∈ get_category_views [filmA, filmB, filmC], p.2 ≤ v :=
  ⟨by simp, predict_matches_gcv_max [filmA, filmB, filmC] (by simp)⟩

/-- C10: when several categories are tied for the maximum summed views,
`predict_top_category` returns the lexicographically smallest tied
label: the grouping sorts the keys ascending and `idxmax` returns the
first key attaining the maximum. -/
theorem predict_tie_lex_least (df : List FilmRow) (k₁ k₂ : String) (v : Int)
    (_hk : k₁ ≠ k₂) (h₁ : (k₁, v) ∈ get_category_views df)
    (h₂ : (k₂, v) ∈ get_category_views df)
    (hmax : ∀ p ∈ get_category_views df, p.2 ≤ v) :
    ∃ c, predict_top_category df = some c ∧
      (c, v) ∈ get_category_views df ∧
      ∀ p ∈ get_category_views df, p.2 = v → strLeR c p.1 := by
  have hdf : df ≠ [] := by
    intro hnil
    subst hnil
    have hempty : get_category_views ([] : List FilmRow) = [] := rfl
    rw [hempty] at h₁
    exact absurd h₁ (List.not_mem_nil _)
  obtain ⟨c, v', hp1, hp2, hp3, hp4⟩ := predict_spec df hdf
  have hvv : v' = v := le_antisymm (hmax _ hp2) (hp3 _ h₁)
  subst hvv
  exact ⟨c, hp1, hp2, hp4⟩

/-- Witness for C10: `Horror` and `Comedy` tied at 150 views; the rule
returns `Comedy`, the lexicographically smaller tied label. -/
theorem predict_tie_lex_least_witness :
    (("Comedy", (150 : Int)) ∈ get_category_views [filmTie1, filmTie2]) ∧
      (("Horror", (150 : Int)) ∈ get_category_views [filmTie1, filmTie2]) ∧
      (∀ p ∈ get_category_views [filmTie1, filmTie2], p.2 ≤ 150) ∧
      ∃ c, predict_top_category [filmTie1, filmTie2] = some c ∧
        (c, (150 : Int)) ∈ get_category_views [filmTie1, filmTie2] ∧
        ∀ p ∈ get_category_views [filmTie1, filmTie2],
          p.2 = 150 → strLeR c p.1 :=
  ⟨by decide, by decide, by decide,
    predict_tie_lex_least [filmTie1, filmTie2] "Comedy" "Horror" 150
      (by decide) (by decide) (by decide) (by decide)⟩

/-- C6: `get_basic_stats` returns exactly the record the spec describes
— distinct-film count, total views, and the mean rating rounded to two
decimals — and on an empty table it returns a record whose `avg_rating`
is the undefined `NaN`-like value (`none`) instead of raising. -/
theorem basic_stats_matches_spec (df : List FilmRow) :
    get_basic_stats df = specBasicStats df ∧
      (get_basic_stats []).avg_rating = none := by
  constructor
  · unfold get_basic_stats specBasicStats
    have hfilms : (dropDuplicates (df.map (fun r => r.Film_Name))).length
        = (df.map (fun r => r.Film_Name)).toFinset.card := by
      rw [← List.toFinset_card_of_nodup (nodup_dropDuplicates _)]
      congr 1
      apply Finset.ext
      intro a
      simp [List.mem_toFinset, mem_dropDuplicates]
    simp [hfilms]
  · rfl

/-- Witness for C6: the record evaluated on the three-film spec
example. -/
theorem basic_stats_matches_spec_witness :
    get_basic_stats [filmA, filmB, filmC] = specBasicStats [filmA, filmB, filmC] ∧
      (get_basic_stats []).avg_rating = none :=
  basic_stats_matches_spec [filmA, filmB, filmC]

/-- Witness for C8: idempotence evaluated on a concrete two-row raw
table. -/
theorem clean_data_idempotent_witness :
    cleanAgain sampleHash sampleDateStr 300
        (clean_data sampleParse sampleHash sampleDateStr 300 [rawPast, rawFuture])
      = clean_data sampleParse sampleHash sampleDateStr 300 [rawPast, rawFuture] :=
  clean_data_idempotent sampleParse sampleHash sampleDateStr 300 [rawPast, rawFuture]

/-- Witness for C7 (amended): the non-date columns of a concrete
two-row table are untouched by the in-place date parsing. -/
theorem clean_data_mutates_only_dates_witness :
    (callerStateAfter sampleParse [rawFuture, rawPast]).map stripDates
      = [rawFuture, rawPast].map stripDates :=
  clean_data_mutates_only_dates sampleParse [rawFuture, rawPast]
